import Mathlib

namespace UniAlign

/-! ## Farthest-point sampling (`farthest_point_sample`, datasets.py lines 83-104) -/

/-- Squared Euclidean distance over the first three coordinates of two rows:
`np.sum((xyz - centroid) ** 2, -1)` for one row of `xyz = point[:, :3]`. -/
def sqDist3 (p q : List ℚ) : ℚ :=
  (List.zipWith (fun a b => (a - b) ^ 2) (p.take 3) (q.take 3)).sum

/-- Accumulator loop of `np.argmax`: `i` is the index of the head of `l`,
`bi`/`bv` the index and value of the current best; a later element replaces
the best only when strictly greater, so the first maximum wins. -/
def argmaxAux : List ℚ → Nat → Nat → ℚ → Nat
  | [], _, bi, _ => bi
  | x :: xs, i, bi, bv =>
      if bv < x then argmaxAux xs (i + 1) i x else argmaxAux xs (i + 1) bi bv

/-- `np.argmax` on a 1-d array: index of the first occurrence of the maximum
(`0` on the empty array, where numpy instead raises). -/
def argmaxFirst : List ℚ → Nat
  | [] => 0
  | x :: xs => argmaxAux xs 1 0 x

/-- The constant `1e10` that `farthest_point_sample` uses to initialise the
running minimum-distance array (`distance = np.ones((N,)) * 1e10`). -/
def fpsCap : ℚ := 10 ^ 10

/-- Loop of `farthest_point_sample`: at each of the `npoint` iterations the
current `farthest` index is recorded, the running minimum-distance array is
lowered pointwise by the squared distance to the just-recorded point
(`mask = dist < distance; distance[mask] = dist[mask]`), and the next
`farthest` is `np.argmax(distance)`.  Returns the recorded index list. -/
def fpsRun (xyz : List (List ℚ)) : Nat → Nat → List ℚ → List Nat
  | 0, _, _ => []
  | n + 1, far, dist =>
      let c := xyz.getD far []
      let newDist :=
        List.zipWith (fun dv nv => if nv < dv then nv else dv) dist
          (xyz.map (fun p => sqDist3 p c))
      far :: fpsRun xyz n (argmaxFirst newDist) newDist

/-- Index list selected by `farthest_point_sample` on `point` with `npoint`
samples, where `start` is the drawn value of `np.random.randint(0, N)`. -/
def fpsIndices (point : List (List ℚ)) (npoint start : Nat) : List Nat :=
  fpsRun (point.map (List.take 3)) npoint start
    (List.replicate point.length fpsCap)

/-- `farthest_point_sample(point, npoint)` with the random initial index
`start` made explicit: the selected full-width rows `point[centroids]`. -/
def farthest_point_sample (point : List (List ℚ)) (npoint start : Nat) :
    List (List ℚ) :=
  (fpsIndices point npoint start).map (fun i => point.getD i [])

/-- Running minimum of the squared distances from the point `p` to the rows
of `xyz` selected by `sel`, starting from the `1e10` initialisation — the
value `distance[j]` holds for `p = xyz[j]` after the points in `sel` have
been processed. -/
def cappedMinDistPt (xyz : List (List ℚ)) (sel : List Nat) (p : List ℚ) : ℚ :=
  sel.foldl (fun acc s => min acc (sqDist3 p (xyz.getD s []))) fpsCap

/-! ### Heap-threaded variant (for the frame property, claim C8)

`fpsRunH` re-runs the same loop but threads the caller's array `pt` through
every iteration: each numpy operation of the source either only reads `pt`
(the slice `point[:, :3]` and the final fancy-indexing `point[centroids]`,
which copies) or writes one of the locally allocated arrays (`centroids`,
`distance`); no operation writes `pt`, so it is returned unchanged. -/

def fpsRunH (pt : List (List ℚ)) (xyz : List (List ℚ)) :
    Nat → Nat → List ℚ → List (List ℚ) × List Nat
  | 0, _, _ => (pt, [])
  | n + 1, far, dist =>
      let c := xyz.getD far []
      let newDist :=
        List.zipWith (fun dv nv => if nv < dv then nv else dv) dist
          (xyz.map (fun p => sqDist3 p c))
      let r := fpsRunH pt xyz n (argmaxFirst newDist) newDist
      (r.1, far :: r.2)

/-- `farthest_point_sample` with the caller's array threaded: the first
component is the caller's array after the call, the second the returned
sample (read off the final state of the caller's array). -/
def farthestPointSampleH (pt : List (List ℚ)) (npoint start : Nat) :
    List (List ℚ) × List (List ℚ) :=
  let r := fpsRunH pt (pt.map (List.take 3)) npoint start
    (List.replicate pt.length fpsCap)
  (r.1, r.2.map (fun i => r.1.getD i []))

/-! ## Geometric augmentation library (datasets.py lines 107-312)

Batches are numpy `(B, N, C)` arrays, embedded as rectangular nested lists;
random draws are threaded as explicit streams, and `np.cos`/`np.sin` as
abstract function parameters (their numeric values never matter for the
properties below). -/

/-- The `(B, N, C)` shape of a 3-d numpy array.  A nested-list batch has one
exactly when it is rectangular (numpy numeric arrays are rectangular by
construction; a ragged nested list would not form a 3-d array at all). -/
def shape3 (batch : List (List (List ℚ))) : Option (Nat × Nat × Nat) :=
  let N := (batch.headD []).length
  let C := ((batch.headD []).headD []).length
  if batch.all (fun cl => cl.length == N && cl.all (fun r => r.length == C)) then
    some (batch.length, N, C)
  else none

/-- `random_point_dropout(batch_pc, max_dropout_ratio)` (lines 149-156).
`ratioDraw b` is the per-cloud draw `np.random.random()` and `ptDraw b n`
the per-point draw `np.random.random((N,))[n]`; every point `n` of cloud
`b` with `ptDraw b n <= dropout_ratio` has its coordinates replaced by
those of the cloud's first point (`batch_pc[b, drop_idx, :] =
batch_pc[b, 0, :]`); the point count never changes. -/
def random_point_dropout (ratioDraw : Nat → ℚ) (ptDraw : Nat → Nat → ℚ)
    (maxDropoutRatio : ℚ) (batch : List (List (List ℚ))) :
    Option (List (List (List ℚ))) :=
  (shape3 batch).map (fun _ =>
    batch.mapIdx (fun b cl =>
      cl.mapIdx (fun n p =>
        if ptDraw b n ≤ ratioDraw b * maxDropoutRatio then cl.getD 0 [] else p)))

/-- `random_point_dropout_distill(batch_pc, max_dropout_ratio)` (lines
159-166): identical to `random_point_dropout` except that the draws come
from the dedicated `np_random` distillation stream (`np_random.rand()`),
here again threaded as `ratioDraw` / `ptDraw`. -/
def random_point_dropout_distill (ratioDraw : Nat → ℚ) (ptDraw : Nat → Nat → ℚ)
    (maxDropoutRatio : ℚ) (batch : List (List (List ℚ))) :
    Option (List (List (List ℚ))) :=
  (shape3 batch).map (fun _ =>
    batch.mapIdx (fun b cl =>
      cl.mapIdx (fun n p =>
        if ptDraw b n ≤ ratioDraw b * maxDropoutRatio then cl.getD 0 [] else p)))

/-- `random_scale_point_cloud(batch_data, scale_low, scale_high)` (lines
169-180).  `scaleDraw b` is `scales[b]` from
`np.random.uniform(scale_low, scale_high, B)`; every coordinate of every
point of cloud `b` (all `C` channels) is multiplied by it. -/
def random_scale_point_cloud (scaleDraw : Nat → ℚ)
    (batch : List (List (List ℚ))) : Option (List (List (List ℚ))) :=
  (shape3 batch).map (fun _ =>
    batch.mapIdx (fun b cl =>
      cl.map (fun r => r.map (fun x => x * scaleDraw b))))

/-- `random_scale_point_cloud_distill` (lines 183-194): same transformation
with the scales drawn from the `np_random` distillation stream. -/
def random_scale_point_cloud_distill (scaleDraw : Nat → ℚ)
    (batch : List (List (List ℚ))) : Option (List (List (List ℚ))) :=
  (shape3 batch).map (fun _ =>
    batch.mapIdx (fun b cl =>
      cl.map (fun r => r.map (fun x => x * scaleDraw b))))

/-- `shift_point_cloud(batch_data, shift_range)` (lines 197-208).
`shiftDraw b j` is `shifts[b, j]` from
`np.random.uniform(-shift_range, shift_range, (B, 3))`.  The in-place
broadcast `batch_data[b, :, :] += shifts[b, :]` adds a length-3 vector to
an `(N, C)` slice, which numpy accepts only when `C = 3`; any other channel
count raises a broadcast error, modelled as `none`. -/
def shift_point_cloud (shiftDraw : Nat → Nat → ℚ)
    (batch : List (List (List ℚ))) : Option (List (List (List ℚ))) :=
  match shape3 batch with
  | none => none
  | some (_, _, C) =>
      if C = 3 then
        some (batch.mapIdx (fun b cl =>
          cl.map (fun r => r.mapIdx (fun j x => x + shiftDraw b j))))
      else none

/-- `shift_point_cloud_distill` (lines 211-222): same transformation with
the shifts drawn from the `np_random` distillation stream. -/
def shift_point_cloud_distill (shiftDraw : Nat → Nat → ℚ)
    (batch : List (List (List ℚ))) : Option (List (List (List ℚ))) :=
  match shape3 batch with
  | none => none
  | some (_, _, C) =>
      if C = 3 then
        some (batch.mapIdx (fun b cl =>
          cl.map (fun r => r.mapIdx (fun j x => x + shiftDraw b j))))
      else none

/-- `jitter_point_cloud(batch_data, sigma, clip)` (lines 225-236).
`noise b n c` is `np.random.randn(B, N, C)[b, n, c]`; each coordinate gains
`np.clip(sigma * noise, -clip, clip)`, and the `assert clip > 0` failure is
modelled as `none`. -/
def jitter_point_cloud (noise : Nat → Nat → Nat → ℚ) (sigma clip : ℚ)
    (batch : List (List (List ℚ))) : Option (List (List (List ℚ))) :=
  match shape3 batch with
  | none => none
  | some _ =>
      if 0 < clip then
        some (batch.mapIdx (fun b cl =>
          cl.mapIdx (fun n r =>
            r.mapIdx (fun c x => x + max (-clip) (min clip (sigma * noise b n c))))))
      else none

/-- Right-multiplication of one length-3 row by the up-axis rotation matrix
`[[cosval, 0, sinval], [0, 1, 0], [-sinval, 0, cosval]]`, i.e. one row of
`np.dot(shape_pc.reshape((-1, 3)), rotation_matrix)`. -/
def rotRowY (cosval sinval : ℚ) (r : List ℚ) : List ℚ :=
  [r.getD 0 0 * cosval + r.getD 1 0 * 0 + r.getD 2 0 * (-sinval),
   r.getD 0 0 * 0 + r.getD 1 0 * 1 + r.getD 2 0 * 0,
   r.getD 0 0 * sinval + r.getD 1 0 * 0 + r.getD 2 0 * cosval]

/-- `rotate_point_cloud(batch_data)` (lines 107-125).  `cosv k` / `sinv k`
stand for `np.cos` / `np.sin` of the per-cloud drawn angle
`np.random.uniform() * 2 * np.pi`.  For a `(B, N, C)` batch the assignment
`rotated_data[k, ...] = np.dot(shape_pc.reshape((-1, 3)), rotation_matrix)`
stores an `(N*C/3, 3)` product into an `(N, C)` slot (and the reshape
needs `3 | N*C`), which numpy accepts only when `C = 3`; other channel
widths raise, modelled as `none`. -/
def rotate_point_cloud (cosv sinv : Nat → ℚ)
    (batch : List (List (List ℚ))) : Option (List (List (List ℚ))) :=
  match shape3 batch with
  | none => none
  | some (_, _, C) =>
      if C = 3 then
        some (batch.mapIdx (fun k cl => cl.map (rotRowY (cosv k) (sinv k))))
      else none

/-- 3x3 matrix product `np.dot(A, B)`, written entrywise. -/
def mul3 (A B : Matrix (Fin 3) (Fin 3) ℚ) : Matrix (Fin 3) (Fin 3) ℚ :=
  Matrix.of fun i j => A i 0 * B 0 j + A i 1 * B 1 j + A i 2 * B 2 j

/-- Right-multiplication of one length-3 row by a 3x3 matrix, i.e. one row
of `np.dot(shape_pc.reshape((-1, 3)), R)`. -/
def vecMul3 (r : List ℚ) (M : Matrix (Fin 3) (Fin 3) ℚ) : List ℚ :=
  [r.getD 0 0 * M 0 0 + r.getD 1 0 * M 1 0 + r.getD 2 0 * M 2 0,
   r.getD 0 0 * M 0 1 + r.getD 1 0 * M 1 1 + r.getD 2 0 * M 2 1,
   r.getD 0 0 * M 0 2 + r.getD 1 0 * M 1 2 + r.getD 2 0 * M 2 2]

/-- The axis rotation matrix `Rx` of `rotate_perturbation_point_cloud`. -/
def rotX (c s : ℚ) : Matrix (Fin 3) (Fin 3) ℚ := !![1, 0, 0; 0, c, -s; 0, s, c]

/-- The axis rotation matrix `Ry` of `rotate_perturbation_point_cloud`. -/
def rotY (c s : ℚ) : Matrix (Fin 3) (Fin 3) ℚ := !![c, 0, s; 0, 1, 0; -s, 0, c]

/-- The axis rotation matrix `Rz` of `rotate_perturbation_point_cloud`. -/
def rotZ (c s : ℚ) : Matrix (Fin 3) (Fin 3) ℚ := !![c, -s, 0; s, c, 0; 0, 0, 1]

/-- The per-cloud composed perturbation matrix of
`rotate_perturbation_point_cloud`: the three Gaussian angles
`angle_sigma * randn(3)` clipped to `[-angle_clip, angle_clip]` build
`R = np.dot(Rz, np.dot(Ry, Rx))`. -/
def perturbR (cosF sinF : ℚ → ℚ) (g : Nat → Fin 3 → ℚ)
    (angleSigma angleClip : ℚ) (k : Nat) : Matrix (Fin 3) (Fin 3) ℚ :=
  let a : Fin 3 → ℚ :=
    fun i => max (-angleClip) (min angleClip (angleSigma * g k i))
  mul3 (rotZ (cosF (a 2)) (sinF (a 2)))
    (mul3 (rotY (cosF (a 1)) (sinF (a 1))) (rotX (cosF (a 0)) (sinF (a 0))))

/-- `rotate_perturbation_point_cloud(batch_data, angle_sigma, angle_clip)`
(lines 239-273).  `cosF` / `sinF` stand for `np.cos` / `np.sin`, and
`g k i` for `np.random.randn(3)[i]` drawn for cloud `k`; the per-cloud
matrix `R` (see `perturbR`) right-multiplies every row.  As in
`rotate_point_cloud`, the reshape/assignment succeeds only for `C = 3`. -/
def rotate_perturbation_point_cloud (cosF sinF : ℚ → ℚ) (g : Nat → Fin 3 → ℚ)
    (angleSigma angleClip : ℚ) (batch : List (List (List ℚ))) :
    Option (List (List (List ℚ))) :=
  match shape3 batch with
  | none => none
  | some (_, _, C) =>
      if C = 3 then
        some (batch.mapIdx (fun k cl =>
          cl.map (fun r => vecMul3 r (perturbR cosF sinF g angleSigma angleClip k))))
      else none

/-- `rotate_perturbation_point_cloud_distill` (lines 276-312): same
transformation with the three Gaussian angles drawn from the `np_random`
distillation stream. -/
def rotate_perturbation_point_cloud_distill (cosF sinF : ℚ → ℚ)
    (g : Nat → Fin 3 → ℚ) (angleSigma angleClip : ℚ)
    (batch : List (List (List ℚ))) : Option (List (List (List ℚ))) :=
  match shape3 batch with
  | none => none
  | some (_, _, C) =>
      if C = 3 then
        some (batch.mapIdx (fun k cl =>
          cl.map (fun r => vecMul3 r (perturbR cosF sinF g angleSigma angleClip k))))
      else none

/-! ## Dataset adapters: Sample key sets and the ShapeNet retry loop -/

/-- Key/value pairs of the Sample built by `ModelNet.__getitem__`
(datasets.py lines 517-540): `rtn["pc"]`, `rtn["label"]`,
`rtn["class_name"]` always, plus `rtn["text_feature"]` when the subset is
`"train"`.  Payload values are abstract. -/
def modelnetItem {V : Type} (subset : String)
    (pc label className textFeature : V) : List (String × V) :=
  let rtn := [("pc", pc), ("label", label), ("class_name", className)]
  if subset = "train" then rtn ++ [("text_feature", textFeature)] else rtn

/-- Key/value pairs of the Sample returned by `ScanObjectNN.__getitem__`
(lines 845-858): `{"pc": pc, "caption": caption, "label": label}`. -/
def scanobjectnnItem {V : Type} (pc caption label : V) : List (String × V) :=
  [("pc", pc), ("caption", caption), ("label", label)]

/-- Key/value pairs of the Sample built by the successful iteration of
`ShapeNet.__getitem__` (lines 1050-1063): the class index tensor is stored
under the key `"target"`, not `"label"`. -/
def shapenetItem {V : Type}
    (taxonomyId modelId caption pc image target textFeature : V) :
    List (String × V) :=
  [("taxonomy_id", taxonomyId), ("model_id", modelId), ("caption", caption),
   ("pc", pc), ("image", image), ("target", target),
   ("text_feature", textFeature)]

/-- One run of the retry loop of `ShapeNet.__getitem__` (lines 964-1069),
with the per-attempt computation abstracted: `process idx` stands for the
Sample the loop body builds from `self.file_list[idx]` (point-cloud
loading, sampling, normalisation, augmentation, caption/text-feature
assembly and the image transform — all recomputed from scratch each
iteration), `imageOk idx` for whether `pil_loader` succeeds on the image
picked for `idx`, and `redraw t` for the `t`-th draw of
`random.randint(0, len(self.file_list) - 1)` in the `except` branch.  The
source loop `while rtn is None` has no iteration ceiling; `fuel` bounds the
unrolling here, so a run returning `none` at every `fuel` models a loop
that never terminates. -/
def shapenetGetItemLoop {α : Type} (imageOk : Nat → Bool) (process : Nat → α)
    (redraw : Nat → Nat) : Nat → Nat → Nat → Option α
  | 0, _, _ => none
  | fuel + 1, t, idx =>
      if imageOk idx then some (process idx)
      else shapenetGetItemLoop imageOk process redraw fuel (t + 1) (redraw t)

/-- The retry loop of `ShapeNet.__getitem__` never returns — at no finite
unrolling bound — when every item's image is broken. -/
def shapenetRetryDiverges : Prop :=
  ∀ (fuel t idx : Nat),
    shapenetGetItemLoop (fun _ => false) (fun i => i) (fun t => t)
      fuel t idx = none

/-! ## Normalisation (`pc_normalize`, lines 66-71; `normalize_pc`, lines 73-80)

The claimed properties (exact zero centroid, exact unit maximum norm,
idempotence in exact arithmetic) concern the real-number semantics of the
numpy code, so this section is embedded over `ℝ` with `Real.sqrt`; a cloud
is a list of `D`-dimensional points. -/

/-- `np.mean(pc, axis=0)`. -/
noncomputable def npMean {D : Nat} (pc : List (Fin D → ℝ)) : Fin D → ℝ :=
  fun d => (pc.map (fun p => p d)).sum / pc.length

/-- The Euclidean norm of one row: `np.sqrt(np.sum(pc**2, axis=1))`
(equivalently `np.linalg.norm(pc, axis=1)`) at that row. -/
noncomputable def rowNorm {D : Nat} (p : Fin D → ℝ) : ℝ :=
  Real.sqrt (∑ d, p d ^ 2)

/-- `np.max` on a 1-d array (the normalisation routines only apply it to
nonempty arrays; numpy raises on an empty one). -/
noncomputable def npMax : List ℝ → ℝ
  | [] => 0
  | x :: xs => xs.foldl max x

/-- The re-centred cloud `pc - np.mean(pc, axis=0)` both routines start
with. -/
noncomputable def centered {D : Nat} (pc : List (Fin D → ℝ)) :
    List (Fin D → ℝ) :=
  pc.map (fun p d => p d - npMean pc d)

/-- The divisor `m` of both routines: the maximum Euclidean point norm of
the re-centred cloud. -/
noncomputable def maxCenteredNorm {D : Nat} (pc : List (Fin D → ℝ)) : ℝ :=
  npMax ((centered pc).map rowNorm)

/-- `pc_normalize(pc)` (lines 66-71): subtract the centroid and divide by
the maximum norm `m` — unconditionally, with no degenerate-case guard. -/
noncomputable def pc_normalize {D : Nat} (pc : List (Fin D → ℝ)) :
    List (Fin D → ℝ) :=
  (centered pc).map (fun p d => p d / maxCenteredNorm pc)

/-- `normalize_pc(pc)` (lines 73-80): subtract the centroid; if the
maximum norm is below `1e-6`, return `np.zeros_like(pc)`, else divide by
the maximum norm. -/
noncomputable def normalize_pc {D : Nat} (pc : List (Fin D → ℝ)) :
    List (Fin D → ℝ) :=
  if maxCenteredNorm pc < 1e-6 then (centered pc).map (fun _ _ => 0)
  else (centered pc).map (fun p d => p d / maxCenteredNorm pc)

/-! ## Theorems -/

/-! ### Characterisation of `argmaxFirst` -/

theorem getD_mem_of_lt {α : Type} {l : List α} {j : Nat} (d : α)
    (h : j < l.length) : l.getD j d ∈ l := by
  rw [List.getD_eq_getElem _ _ h]
  exact List.getElem_mem h

theorem argmaxAux_char (xs : List ℚ) : ∀ (i bi : Nat) (bv : ℚ),
    (argmaxAux xs i bi bv = bi ∧ ∀ z ∈ xs, z ≤ bv) ∨
    (∃ k, k < xs.length ∧ argmaxAux xs i bi bv = i + k ∧
      bv < xs.getD k 0 ∧ (∀ j, j < xs.length → xs.getD j 0 ≤ xs.getD k 0) ∧
      (∀ j, j < k → xs.getD j 0 < xs.getD k 0)) := by
  induction xs with
  | nil => intro i bi bv; exact Or.inl ⟨rfl, by simp⟩
  | cons x xs ih =>
      intro i bi bv
      by_cases hx : bv < x
      · rcases ih (i + 1) i x with ⟨heq, hall⟩ | ⟨k, hk, heq, hgt, hmax, hfirst⟩
        · refine Or.inr ⟨0, by simp, ?_, ?_, ?_, ?_⟩
          · simpa [argmaxAux, hx] using heq
          · simpa using hx
          · intro j hj
            match j with
            | 0 => exact le_refl _
            | j + 1 =>
                simp only [List.getD_cons_succ, List.getD_cons_zero]
                exact hall _ (getD_mem_of_lt 0 (by simpa using hj))
          · intro j hj; omega
        · refine Or.inr ⟨k + 1, by simpa using hk, ?_, ?_, ?_, ?_⟩
          · simp only [argmaxAux, if_pos hx]; omega

          · simpa [List.getD_cons_succ] using lt_trans hx hgt
          · intro j hj
            match j with
            | 0 =>
                simpa [List.getD_cons_succ] using le_of_lt hgt
            | j + 1 =>
                simp only [List.getD_cons_succ]
                exact hmax _ (by simpa using hj)
          · intro j hj
            match j with
            | 0 => simpa [List.getD_cons_succ] using hgt
            | j + 1 =>
                simp only [List.getD_cons_succ]
                exact hfirst _ (by omega)
      · rcases ih (i + 1) bi bv with ⟨heq, hall⟩ | ⟨k, hk, heq, hgt, hmax, hfirst⟩
        · refine Or.inl ⟨by simpa [argmaxAux, hx] using heq, ?_⟩
          intro z hz
          rcases List.mem_cons.mp hz with rfl | hz
          · exact le_of_not_lt hx
          · exact hall _ hz
        · refine Or.inr ⟨k + 1, by simpa using hk, ?_, ?_, ?_, ?_⟩
          · simp only [argmaxAux, if_neg hx]; omega
          · simpa [List.getD_cons_succ] using hgt
          · intro j hj
            match j with
            | 0 =>
                simp only [List.getD_cons_succ, List.getD_cons_zero]
                exact le_trans (le_of_not_lt hx) (le_of_lt hgt)
            | j + 1 =>
                simp only [List.getD_cons_succ]
                exact hmax _ (by simpa using hj)
          · intro j hj
            match j with
            | 0 =>
                simp only [List.getD_cons_succ, List.getD_cons_zero]
                exact lt_of_le_of_lt (le_of_not_lt hx) hgt
            | j + 1 =>
                simp only [List.getD_cons_succ]
                exact hfirst _ (by omega)

/-- `argmaxFirst` returns a valid index of the first occurrence of the
maximum: no entry exceeds the entry there, and every strictly earlier entry
is strictly smaller. -/
theorem argmaxFirst_isFirstMax (l : List ℚ) (h : l ≠ []) :
    argmaxFirst l < l.length ∧
    (∀ j, j < l.length → l.getD j 0 ≤ l.getD (argmaxFirst l) 0) ∧
    (∀ j, j < argmaxFirst l → l.getD j 0 < l.getD (argmaxFirst l) 0) := by
  match l with
  | [] => exact absurd rfl h
  | x :: xs =>
      rcases argmaxAux_char xs 1 0 x with ⟨heq, hall⟩ | ⟨k, hk, heq, hgt, hmax, hfirst⟩
      · have hr : argmaxFirst (x :: xs) = 0 := heq
        refine ⟨by simp [hr], ?_, ?_⟩
        · intro j hj
          rw [hr]
          match j with
          | 0 => exact le_refl _
          | j + 1 =>
              simp only [List.getD_cons_succ, List.getD_cons_zero]
              exact hall _ (getD_mem_of_lt 0 (by simpa using hj))
        · intro j hj; rw [hr] at hj; omega
      · have hr : argmaxFirst (x :: xs) = k + 1 := by
          show argmaxAux xs 1 0 x = k + 1; omega
        refine ⟨by simp [hr]; omega, ?_, ?_⟩
        · intro j hj
          rw [hr]
          match j with
          | 0 =>
              simpa [List.getD_cons_succ] using le_of_lt hgt
          | j + 1 =>
              simp only [List.getD_cons_succ]
              exact hmax _ (by simpa using hj)
        · intro j hj
          rw [hr] at hj ⊢
          match j with
          | 0 => simpa [List.getD_cons_succ] using hgt
          | j + 1 =>
              simp only [List.getD_cons_succ]
              exact hfirst _ (by omega)

/-! ### The running minimum-distance invariant of the sampling loop -/

theorem getD_map_of_lt {α β : Type} (f : α → β) {l : List α} {j : Nat}
    (d : β) (e : α) (h : j < l.length) : (l.map f).getD j d = f (l.getD j e) := by
  rw [List.getD_eq_getElem _ _ (by simpa using h), List.getD_eq_getElem _ _ h,
    List.getElem_map]

theorem ifLt_eq_min (a b : ℚ) : (if b < a then b else a) = min a b := by
  rcases le_or_lt a b with h | h
  · rw [if_neg (not_lt.mpr h), min_eq_left h]
  · rw [if_pos h, min_eq_right (le_of_lt h)]

/-- One mask-update of the `distance` array: starting from the running
minima for the selected list `sel`, lowering by the distances to the row
`far` yields the running minima for `sel ++ [far]`. -/
theorem newDist_eq (xyz : List (List ℚ)) (sel : List Nat) (far : Nat) :
    List.zipWith (fun dv nv => if nv < dv then nv else dv)
      (xyz.map (cappedMinDistPt xyz sel))
      (xyz.map (fun p => sqDist3 p (xyz.getD far []))) =
    xyz.map (cappedMinDistPt xyz (sel ++ [far])) := by
  rw [List.zipWith_map, List.zipWith_same]
  refine List.map_congr_left fun p _ => ?_
  rw [ifLt_eq_min]
  unfold cappedMinDistPt
  rw [List.foldl_append]
  rfl

/-- Characterisation of the sampling loop run on a distance array that holds
the running minima for an already-selected list `sel`: it emits `far` first,
and each subsequent index is `np.argmax` of the running minimum-distance
array for everything selected so far. -/
theorem fpsRun_char (xyz : List (List ℚ)) : ∀ (n far : Nat) (sel : List Nat),
    (fpsRun xyz n far (xyz.map (cappedMinDistPt xyz sel))).length = n ∧
    (0 < n → (fpsRun xyz n far (xyz.map (cappedMinDistPt xyz sel))).getD 0 0 = far) ∧
    (∀ i, i + 1 < n →
      (fpsRun xyz n far (xyz.map (cappedMinDistPt xyz sel))).getD (i + 1) 0 =
        argmaxFirst (xyz.map (cappedMinDistPt xyz
          (sel ++ (fpsRun xyz n far (xyz.map (cappedMinDistPt xyz sel))).take (i + 1))))) := by
  intro n
  induction n with
  | zero => exact fun far sel => ⟨rfl, fun h => absurd h (by omega), fun i hi => by omega⟩
  | succ n ih =>
      intro far sel
      have hstep : fpsRun xyz (n + 1) far (xyz.map (cappedMinDistPt xyz sel)) =
          far :: fpsRun xyz n
            (argmaxFirst (xyz.map (cappedMinDistPt xyz (sel ++ [far]))))
            (xyz.map (cappedMinDistPt xyz (sel ++ [far]))) := by
        simp only [fpsRun]
        rw [newDist_eq]
      obtain ⟨ihlen, ihhead, ihrec⟩ :=
        ih (argmaxFirst (xyz.map (cappedMinDistPt xyz (sel ++ [far])))) (sel ++ [far])
      rw [hstep]
      refine ⟨by simpa using ihlen, fun _ => rfl, ?_⟩
      intro i hi
      match i with
      | 0 =>
          simp only [List.getD_cons_succ, List.take_succ_cons, List.take_zero]
          rw [ihhead (by omega)]
      | i + 1 =>
          simp only [List.getD_cons_succ, List.take_succ_cons]
          rw [ihrec i (by omega)]
          simp only [List.append_assoc, List.singleton_append]

/-- Every index the loop emits is a valid row index of `xyz`. -/
theorem fpsRun_lt (xyz : List (List ℚ)) (hxyz : xyz ≠ []) :
    ∀ (n far : Nat) (dist : List ℚ), far < xyz.length →
      dist.length = xyz.length →
      ∀ a ∈ fpsRun xyz n far dist, a < xyz.length := by
  intro n
  induction n with
  | zero => intro far dist _ _ a ha; simp [fpsRun] at ha
  | succ n ih =>
      intro far dist hfar hdist a ha
      simp only [fpsRun, List.mem_cons] at ha
      rcases ha with rfl | ha
      · exact hfar
      · set nd := List.zipWith (fun dv nv => if nv < dv then nv else dv) dist
          (xyz.map (fun p => sqDist3 p (xyz.getD far []))) with hnd
        have hndlen : nd.length = xyz.length := by
          rw [hnd, List.length_zipWith, hdist, List.length_map, Nat.min_self]
        have hne : nd ≠ [] := by
          apply List.ne_nil_of_length_pos
          rw [hndlen]
          exact List.length_pos.mpr hxyz
        exact ih (argmaxFirst nd) nd
          (by rw [← hndlen]; exact (argmaxFirst_isFirstMax nd hne).1) hndlen a ha

/-- The initial `distance = np.ones((N,)) * 1e10` array is the running
minimum for the empty selected list. -/
theorem fps_init_dist (xyz : List (List ℚ)) :
    List.replicate xyz.length fpsCap = xyz.map (cappedMinDistPt xyz []) := by
  rw [show cappedMinDistPt xyz [] = fun _ => fpsCap from rfl, List.map_const']

theorem fpsIndices_eq_run (pts : List (List ℚ)) (K start : Nat) :
    fpsIndices pts K start =
      fpsRun (pts.map (List.take 3)) K start
        ((pts.map (List.take 3)).map (cappedMinDistPt (pts.map (List.take 3)) [])) := by
  unfold fpsIndices
  rw [← fps_init_dist, List.length_map]

/-- C3 (amended): over the first three coordinates, `farthest_point_sample`
returns exactly `K` full-width rows of the input, whose first index is the
drawn starting index; each subsequent index is `np.argmax` (first occurrence
wins on ties) of the *capped* running minimum-distance array — the pointwise
minimum of `1e10` and the squared distances to the already-selected rows —
because the source initialises `distance` at `1e10`, not `+∞`. -/
theorem c3_fps_greedy_capped (pts : List (List ℚ)) (K start : Nat)
    (hK : 1 ≤ K) (hKN : K ≤ pts.length) (hstart : start < pts.length) :
    (farthest_point_sample pts K start).length = K ∧
    (fpsIndices pts K start).getD 0 0 = start ∧
    (∀ i, i < K → (fpsIndices pts K start).getD i 0 < pts.length) ∧
    (∀ r ∈ farthest_point_sample pts K start, r ∈ pts) ∧
    (∀ i, i < K → (farthest_point_sample pts K start).getD i [] =
      pts.getD ((fpsIndices pts K start).getD i 0) []) ∧
    (∀ i, i + 1 < K →
      (fpsIndices pts K start).getD (i + 1) 0 =
        argmaxFirst ((pts.map (List.take 3)).map
          (cappedMinDistPt (pts.map (List.take 3))
            ((fpsIndices pts K start).take (i + 1))))) ∧
    (∀ i, i + 1 < K → ∀ j, j < pts.length →
      cappedMinDistPt (pts.map (List.take 3))
          ((fpsIndices pts K start).take (i + 1))
          ((pts.map (List.take 3)).getD j []) ≤
        cappedMinDistPt (pts.map (List.take 3))
          ((fpsIndices pts K start).take (i + 1))
          ((pts.map (List.take 3)).getD
            ((fpsIndices pts K start).getD (i + 1) 0) [])) ∧
    (∀ i, i + 1 < K → ∀ j, j < (fpsIndices pts K start).getD (i + 1) 0 →
      cappedMinDistPt (pts.map (List.take 3))
          ((fpsIndices pts K start).take (i + 1))
          ((pts.map (List.take 3)).getD j []) <
        cappedMinDistPt (pts.map (List.take 3))
          ((fpsIndices pts K start).take (i + 1))
          ((pts.map (List.take 3)).getD
            ((fpsIndices pts K start).getD (i + 1) 0) [])) := by
  set xyz := pts.map (List.take 3) with hxyzdef
  have hxyzlen : xyz.length = pts.length := List.length_map _ _
  have hxyzne : xyz ≠ [] := by
    apply List.ne_nil_of_length_pos
    omega
  have hrun := fpsIndices_eq_run pts K start
  obtain ⟨hlen, hhead, hrec⟩ := fpsRun_char xyz K start []
  rw [← hrun] at hlen hhead hrec
  simp only [List.nil_append] at hrec
  have hidxlen : (fpsIndices pts K start).length = K := hlen
  have hbound : ∀ i, i < K → (fpsIndices pts K start).getD i 0 < pts.length := by
    intro i hi
    rw [← hxyzlen, hrun]
    exact fpsRun_lt xyz hxyzne K start _ (by omega) (List.length_map _ _) _
      (by rw [← hrun]; exact getD_mem_of_lt 0 (by omega))
  refine ⟨by simpa [farthest_point_sample] using hlen, hhead (by omega), hbound,
    ?_, ?_, hrec, ?_, ?_⟩
  · intro r hr
    simp only [farthest_point_sample, List.mem_map] at hr
    obtain ⟨i, hi, rfl⟩ := hr
    obtain ⟨k, hk, rfl⟩ := List.mem_iff_getElem.mp hi
    rw [show (fpsIndices pts K start)[k] =
        (fpsIndices pts K start).getD k 0 from
      (List.getD_eq_getElem _ _ hk).symm]
    exact getD_mem_of_lt [] (hbound k (by omega))
  · intro i hi
    unfold farthest_point_sample
    rw [getD_map_of_lt _ [] 0 (by omega)]
  · intro i hi j hj
    have hm := argmaxFirst_isFirstMax
      (xyz.map (cappedMinDistPt xyz ((fpsIndices pts K start).take (i + 1))))
      (by
        apply List.ne_nil_of_length_pos
        rw [List.length_map]
        omega)
    have harg : argmaxFirst
        (xyz.map (cappedMinDistPt xyz ((fpsIndices pts K start).take (i + 1)))) <
        xyz.length := by
      have h1 := hm.1
      rwa [List.length_map] at h1
    have h2 := hm.2.1 j (by rw [List.length_map]; omega)
    rw [getD_map_of_lt _ 0 [] (by omega)] at h2
    rw [getD_map_of_lt _ 0 [] harg] at h2
    rw [← hrec i hi] at h2
    exact h2
  · intro i hi j hj
    have hm := argmaxFirst_isFirstMax
      (xyz.map (cappedMinDistPt xyz ((fpsIndices pts K start).take (i + 1))))
      (by
        apply List.ne_nil_of_length_pos
        rw [List.length_map]
        omega)
    have harg : argmaxFirst
        (xyz.map (cappedMinDistPt xyz ((fpsIndices pts K start).take (i + 1)))) <
        xyz.length := by
      have h1 := hm.1
      rwa [List.length_map] at h1
    have hj' : j < xyz.length := by
      rw [hxyzlen]
      exact lt_trans hj (hbound (i + 1) hi)
    have h2 := hm.2.2 j (by rw [← hrec i hi]; exact hj)
    rw [getD_map_of_lt _ 0 [] hj'] at h2
    rw [getD_map_of_lt _ 0 [] harg] at h2
    rw [← hrec i hi] at h2
    exact h2

/-- C3 counterexample: on the 3-point cloud
`[[0,0,0],[150000,0,0],[200000,0,0]]` with `K = 2` and starting index `0`
(so `N = 3 ≥ K = 2 ≥ 1`), the code selects row 1 as the second sample, yet
row 2's minimum squared distance to the already-selected set (row 0 alone)
is strictly larger than row 1's: both exceed the `1e10` initialisation of
the running minimum-distance array, so `np.argmax` sees two equal capped
entries and takes the earlier one — the second selected point does *not*
maximise the minimum squared distance, refuting the claim as stated. -/
theorem c3_counterexample :
    farthest_point_sample [[0,0,0],[150000,0,0],[200000,0,0]] 2 0 =
      [[0,0,0],[(150000:ℚ),0,0]] ∧
    sqDist3 [(150000:ℚ),0,0] [0,0,0] < sqDist3 [(200000:ℚ),0,0] [0,0,0] := by
  norm_num [farthest_point_sample, fpsIndices, fpsRun, sqDist3, argmaxFirst,
    argmaxAux, fpsCap, List.zipWith, List.replicate]

/-- Witness for `c3_fps_greedy_capped` at the concrete cloud
`[[0,0,0],[1,0,0]]`, `K = 2`, starting index `0`. -/
theorem c3_fps_greedy_capped_witness :
    (farthest_point_sample [[0,0,0],[(1:ℚ),0,0]] 2 0).length = 2 ∧
    (fpsIndices [[0,0,0],[(1:ℚ),0,0]] 2 0).getD 0 0 = 0 :=
  ⟨(c3_fps_greedy_capped [[0,0,0],[(1:ℚ),0,0]] 2 0 (by decide) (by decide)
      (by decide)).1,
   (c3_fps_greedy_capped [[0,0,0],[(1:ℚ),0,0]] 2 0 (by decide) (by decide)
      (by decide)).2.1⟩

/-! ### C8: the sampler does not mutate the caller's array -/

theorem fpsRunH_fst (pt xyz : List (List ℚ)) :
    ∀ (n far : Nat) (dist : List ℚ), (fpsRunH pt xyz n far dist).1 = pt := by
  intro n
  induction n with
  | zero => intro far dist; rfl
  | succ n ih => intro far dist; simp only [fpsRunH]; exact ih _ _

theorem fpsRunH_snd (pt xyz : List (List ℚ)) :
    ∀ (n far : Nat) (dist : List ℚ),
      (fpsRunH pt xyz n far dist).2 = fpsRun xyz n far dist := by
  intro n
  induction n with
  | zero => intro far dist; rfl
  | succ n ih => intro far dist; simp only [fpsRunH, fpsRun]; exact congrArg _ (ih _ _)

/-- C8: `farthest_point_sample` never mutates its input.  In the
heap-threaded transcription the caller's array component comes back equal
to the array passed in, and the returned sample (a fresh array produced by
the copying fancy-index `point[centroids]`) agrees with the value-level
function of the original input. -/
theorem c8_fps_does_not_mutate_input (pts : List (List ℚ)) (K start : Nat) :
    (farthestPointSampleH pts K start).1 = pts ∧
    (farthestPointSampleH pts K start).2 = farthest_point_sample pts K start := by
  unfold farthestPointSampleH farthest_point_sample fpsIndices
  simp only []
  constructor
  · exact fpsRunH_fst _ _ _ _ _
  · rw [fpsRunH_fst, fpsRunH_snd]

/-! ### Shape bookkeeping for the augmentation functions -/

theorem headD_eq_getD_zero {α : Type} (l : List α) (d : α) :
    l.headD d = l.getD 0 d := by
  cases l <;> rfl

theorem getD_mapIdx_of_lt {α β : Type} (f : Nat → α → β) {l : List α}
    {i : Nat} (d : β) (e : α) (h : i < l.length) :
    (l.mapIdx f).getD i d = f i (l.getD i e) := by
  rw [List.getD_eq_getElem _ _ (by simpa using h), List.getD_eq_getElem _ _ h]
  have h2 := List.get_mapIdx l f i h
  simp only [List.get_eq_getElem] at h2
  exact h2

/-- Unpacking `shape3 batch = some (B, N, C)` into indexed facts. -/
theorem shape3_some_elim {batch : List (List (List ℚ))} {B N C : Nat}
    (h : shape3 batch = some (B, N, C)) :
    batch.length = B ∧
    (∀ b, b < B → (batch.getD b []).length = N) ∧
    (∀ b, b < B → ∀ n, n < N → ((batch.getD b []).getD n []).length = C) ∧
    (B = 0 → N = 0 ∧ C = 0) ∧ (N = 0 → C = 0) := by
  unfold shape3 at h
  simp only [] at h
  split at h
  case isFalse => exact absurd h (by simp)
  case isTrue hall =>
    simp only [Option.some.injEq, Prod.mk.injEq] at h
    obtain ⟨hB, hN, hC⟩ := h
    simp only [List.all_eq_true, Bool.and_eq_true, beq_iff_eq] at hall
    refine ⟨hB, ?_, ?_, ?_, ?_⟩
    · intro b hb
      rw [← hN]
      exact (hall _ (getD_mem_of_lt [] (by omega))).1
    · intro b hb n hn
      rw [← hC]
      have hclmem : batch.getD b [] ∈ batch := getD_mem_of_lt [] (by omega)
      have hcl := hall _ hclmem
      have h1 := hcl.1
      have hrowmem : (batch.getD b []).getD n [] ∈ batch.getD b [] :=
        getD_mem_of_lt [] (by omega)
      exact hcl.2 _ hrowmem
    · intro hB0
      have : batch = [] := List.length_eq_zero.mp (by omega)
      subst this
      simp at hN hC
      exact ⟨hN.symm, hC.symm⟩
    · intro hN0
      rw [← hC]
      have : (batch.headD []).length = 0 := by omega
      have hempty : batch.headD [] = [] := List.length_eq_zero.mp this
      rw [hempty]
      rfl

/-- Building `shape3 out = some (B, N, C)` from indexed facts. -/
theorem shape3_of_indexed (out : List (List (List ℚ))) (B N C : Nat)
    (hB : out.length = B)
    (hN : ∀ b, b < B → (out.getD b []).length = N)
    (hC : ∀ b, b < B → ∀ n, n < N → ((out.getD b []).getD n []).length = C)
    (hBNC : B = 0 → N = 0 ∧ C = 0) (hNC : N = 0 → C = 0) :
    shape3 out = some (B, N, C) := by
  match out, hB with
  | [], rfl =>
      obtain ⟨hN0, hC0⟩ := hBNC rfl
      subst hN0; subst hC0
      rfl
  | cl :: rest, rfl =>
      have hB0 : 0 < (cl :: rest).length := by simp
      have hNval : ((cl :: rest).headD []).length = N := by
        rw [headD_eq_getD_zero]
        exact hN 0 hB0
      have hCval : (((cl :: rest).headD []).headD []).length = C := by
        rcases Nat.eq_zero_or_pos N with hN0 | hNpos
        · have hcl : (cl :: rest).headD [] = [] := by
            apply List.length_eq_zero.mp
            omega
          rw [hcl]
          simpa using (hNC hN0).symm
        · rw [headD_eq_getD_zero, headD_eq_getD_zero]
          exact hC 0 hB0 0 hNpos
      unfold shape3
      rw [if_pos, hNval, hCval]
      simp only [List.all_eq_true, Bool.and_eq_true, beq_iff_eq]
      intro x hx
      obtain ⟨b, hb, rfl⟩ := List.mem_iff_getElem.mp hx
      rw [← List.getD_eq_getElem _ [] hb]
      have h1 := hN b hb
      refine ⟨by omega, ?_⟩
      intro r hr
      obtain ⟨n, hn, rfl⟩ := List.mem_iff_getElem.mp hr
      rw [← List.getD_eq_getElem _ [] hn]
      have h2 := hC b hb n (by omega)
      omega

/-- A per-cloud transform that preserves cloud lengths and row widths
preserves the `(B, N, C)` shape. -/
theorem shape3_mapIdx_preserve (batch : List (List (List ℚ))) (B N C : Nat)
    (f : Nat → List (List ℚ) → List (List ℚ))
    (h : shape3 batch = some (B, N, C))
    (hf : ∀ b, b < B → (f b (batch.getD b [])).length = N ∧
      ∀ n, n < N → ((f b (batch.getD b [])).getD n []).length = C) :
    shape3 (batch.mapIdx f) = some (B, N, C) := by
  obtain ⟨hB, _, _, hBNC, hNC⟩ := shape3_some_elim h
  refine shape3_of_indexed _ _ _ _ (by rw [List.length_mapIdx]; exact hB) ?_ ?_ hBNC hNC
  · intro b hb
    rw [getD_mapIdx_of_lt _ _ [] (by omega)]
    exact (hf b hb).1
  · intro b hb n hn
    rw [getD_mapIdx_of_lt _ _ [] (by omega)]
    exact (hf b hb).2 n hn

/-- C9: fed the same draw values, each `_distill` augmentation variant
computes exactly the same transformation of its input as its non-distill
counterpart — the two source bodies differ only in which random-number
stream (`np.random` vs the dedicated `np_random`) supplies the draws. -/
theorem c9_distill_matches_default (ratioDraw : Nat → ℚ) (ptDraw : Nat → Nat → ℚ)
    (maxDropoutRatio : ℚ) (scaleDraw : Nat → ℚ) (shiftDraw : Nat → Nat → ℚ)
    (cosF sinF : ℚ → ℚ) (g : Nat → Fin 3 → ℚ) (angleSigma angleClip : ℚ)
    (batch : List (List (List ℚ))) :
    random_point_dropout_distill ratioDraw ptDraw maxDropoutRatio batch =
      random_point_dropout ratioDraw ptDraw maxDropoutRatio batch ∧
    random_scale_point_cloud_distill scaleDraw batch =
      random_scale_point_cloud scaleDraw batch ∧
    shift_point_cloud_distill shiftDraw batch =
      shift_point_cloud shiftDraw batch ∧
    rotate_perturbation_point_cloud_distill cosF sinF g angleSigma angleClip batch =
      rotate_perturbation_point_cloud cosF sinF g angleSigma angleClip batch :=
  ⟨rfl, rfl, rfl, rfl⟩

/-- C5 (amended): on a rectangular batch with *exactly* 3 coordinate
channels, every augmentation function succeeds and returns a batch of the
identical `(B, N, 3)` shape.  For `C > 3` channels the claim fails on
`shift_point_cloud` and the two rotations (see the counterexample): numpy
rejects the length-3 broadcast / the `(N*C/3, 3)`-into-`(N, C)`
assignment. -/
theorem c5_shape_preservation (batch : List (List (List ℚ))) (B N : Nat)
    (hsh : shape3 batch = some (B, N, 3))
    (ratioDraw : Nat → ℚ) (ptDraw : Nat → Nat → ℚ) (maxDropoutRatio : ℚ)
    (scaleDraw : Nat → ℚ) (shiftDraw : Nat → Nat → ℚ)
    (noise : Nat → Nat → Nat → ℚ) (sigma clip : ℚ) (hclip : 0 < clip)
    (cosv sinv : Nat → ℚ) (cosF sinF : ℚ → ℚ) (g : Nat → Fin 3 → ℚ)
    (angleSigma angleClip : ℚ) :
    (∃ out, random_point_dropout ratioDraw ptDraw maxDropoutRatio batch = some out ∧
      shape3 out = some (B, N, 3)) ∧
    (∃ out, random_scale_point_cloud scaleDraw batch = some out ∧
      shape3 out = some (B, N, 3)) ∧
    (∃ out, shift_point_cloud shiftDraw batch = some out ∧
      shape3 out = some (B, N, 3)) ∧
    (∃ out, jitter_point_cloud noise sigma clip batch = some out ∧
      shape3 out = some (B, N, 3)) ∧
    (∃ out, rotate_point_cloud cosv sinv batch = some out ∧
      shape3 out = some (B, N, 3)) ∧
    (∃ out, rotate_perturbation_point_cloud cosF sinF g angleSigma angleClip
        batch = some out ∧
      shape3 out = some (B, N, 3)) := by
  obtain ⟨hB, hN, hC, hBNC, hNC⟩ := shape3_some_elim hsh
  have hd : random_point_dropout ratioDraw ptDraw maxDropoutRatio batch =
      some (batch.mapIdx (fun b cl => cl.mapIdx (fun n p =>
        if ptDraw b n ≤ ratioDraw b * maxDropoutRatio then cl.getD 0 []
        else p))) := by
    unfold random_point_dropout
    rw [hsh]
    rfl
  have hsc : random_scale_point_cloud scaleDraw batch =
      some (batch.mapIdx (fun b cl =>
        cl.map (fun r => r.map (fun x => x * scaleDraw b)))) := by
    unfold random_scale_point_cloud
    rw [hsh]
    rfl
  have hsf : shift_point_cloud shiftDraw batch =
      some (batch.mapIdx (fun b cl =>
        cl.map (fun r => r.mapIdx (fun j x => x + shiftDraw b j)))) := by
    unfold shift_point_cloud
    rw [hsh]
    rfl
  have hj : jitter_point_cloud noise sigma clip batch =
      some (batch.mapIdx (fun b cl => cl.mapIdx (fun n r =>
        r.mapIdx (fun c x => x + max (-clip) (min clip (sigma * noise b n c)))))) := by
    unfold jitter_point_cloud
    rw [hsh, if_pos hclip]
  have hro : rotate_point_cloud cosv sinv batch =
      some (batch.mapIdx (fun k cl => cl.map (rotRowY (cosv k) (sinv k)))) := by
    unfold rotate_point_cloud
    rw [hsh]
    rfl
  have hrp : rotate_perturbation_point_cloud cosF sinF g angleSigma angleClip
        batch =
      some (batch.mapIdx (fun k cl =>
        cl.map (fun r =>
          vecMul3 r (perturbR cosF sinF g angleSigma angleClip k)))) := by
    unfold rotate_perturbation_point_cloud
    rw [hsh]
    rfl
  refine ⟨⟨_, hd, ?_⟩, ⟨_, hsc, ?_⟩, ⟨_, hsf, ?_⟩, ⟨_, hj, ?_⟩, ⟨_, hro, ?_⟩,
    ⟨_, hrp, ?_⟩⟩
  · refine shape3_mapIdx_preserve batch B N 3 _ hsh ?_
    intro b hb
    refine ⟨by rw [List.length_mapIdx]; exact hN b hb, ?_⟩
    intro n hn
    rw [getD_mapIdx_of_lt _ _ [] (by rw [hN b hb]; omega)]
    split
    · exact hC b hb 0 (by omega)
    · exact hC b hb n hn
  · refine shape3_mapIdx_preserve batch B N 3 _ hsh ?_
    intro b hb
    refine ⟨by rw [List.length_map]; exact hN b hb, ?_⟩
    intro n hn
    rw [getD_map_of_lt _ [] [] (by rw [hN b hb]; omega)]
    rw [List.length_map]
    exact hC b hb n hn
  · refine shape3_mapIdx_preserve batch B N 3 _ hsh ?_
    intro b hb
    refine ⟨by rw [List.length_map]; exact hN b hb, ?_⟩
    intro n hn
    rw [getD_map_of_lt _ [] [] (by rw [hN b hb]; omega)]
    rw [List.length_mapIdx]
    exact hC b hb n hn
  · refine shape3_mapIdx_preserve batch B N 3 _ hsh ?_
    intro b hb
    refine ⟨by rw [List.length_mapIdx]; exact hN b hb, ?_⟩
    intro n hn
    rw [getD_mapIdx_of_lt _ _ [] (by rw [hN b hb]; omega)]
    rw [List.length_mapIdx]
    exact hC b hb n hn
  · refine shape3_mapIdx_preserve batch B N 3 _ hsh ?_
    intro b hb
    refine ⟨by rw [List.length_map]; exact hN b hb, ?_⟩
    intro n hn
    rw [getD_map_of_lt _ [] [] (by rw [hN b hb]; omega)]
    rfl
  · refine shape3_mapIdx_preserve batch B N 3 _ hsh ?_
    intro b hb
    refine ⟨by rw [List.length_map]; exact hN b hb, ?_⟩
    intro n hn
    rw [getD_map_of_lt _ [] [] (by rw [hN b hb]; omega)]
    rfl

/-- Witness for `c5_shape_preservation` at the concrete `(1, 1, 3)` batch
`[[[1, 2, 3]]]` with zero draw streams and `clip = 1`. -/
theorem c5_shape_preservation_witness :
    shape3 [[[(1:ℚ), 2, 3]]] = some (1, 1, 3) ∧ (0:ℚ) < 1 ∧
    (∃ out, shift_point_cloud (fun _ _ => 0) [[[(1:ℚ), 2, 3]]] = some out ∧
      shape3 out = some (1, 1, 3)) :=
  ⟨by decide, by decide,
    (c5_shape_preservation [[[(1:ℚ), 2, 3]]] 1 1 (by decide) (fun _ => 0)
      (fun _ _ => 0) 0 (fun _ => 0) (fun _ _ => 0) (fun _ _ _ => 0) 0 1
      (by decide) (fun _ => 0) (fun _ => 0) (fun _ => 0) (fun _ => 0)
      (fun _ _ => 0) 0 0).2.2.1⟩

/-- C5 counterexample: on a `(1, 1, 4)` batch — `C = 4 ≥ 3` coordinate
channels — `shift_point_cloud` and `rotate_point_cloud` raise (numpy cannot
broadcast the length-3 shift onto `(N, 4)` rows, nor store the reshaped
`(N*4/3, 3)` product into an `(N, 4)` slot), modelled as `none`, instead of
returning a batch of the identical shape as the claim states for every
`C ≥ 3`. -/
theorem c5_counterexample :
    shape3 [[[(0:ℚ), 0, 0, 0]]] = some (1, 1, 4) ∧
    shift_point_cloud (fun _ _ => 0) [[[(0:ℚ), 0, 0, 0]]] = none ∧
    rotate_point_cloud (fun _ => 1) (fun _ => 0) [[[(0:ℚ), 0, 0, 0]]] = none := by
  refine ⟨by decide, by decide, by decide⟩

/-- C6: every dropped point of every cloud in the batch is replaced by that
cloud's first point, at unchanged point count; in particular (last
conjunct) with the effective dropout ratio forced to `1.0` on a 5-point
cloud, every one of the 5 output points equals the original first point. -/
theorem c6_dropout_value_law (ratioDraw : Nat → ℚ) (ptDraw : Nat → Nat → ℚ)
    (maxDropoutRatio : ℚ) (batch out : List (List (List ℚ)))
    (hout : random_point_dropout ratioDraw ptDraw maxDropoutRatio batch = some out) :
    out.length = batch.length ∧
    (∀ b, b < batch.length → (out.getD b []).length = (batch.getD b []).length) ∧
    (∀ b, b < batch.length → ∀ n, n < (batch.getD b []).length →
      ptDraw b n ≤ ratioDraw b * maxDropoutRatio →
      (out.getD b []).getD n [] = (batch.getD b []).getD 0 []) ∧
    (∀ b, b < batch.length → (batch.getD b []).length = 5 →
      ratioDraw b * maxDropoutRatio = 1 → (∀ n, ptDraw b n ≤ 1) →
      (out.getD b []).length = 5 ∧
      ∀ n, n < 5 → (out.getD b []).getD n [] = (batch.getD b []).getD 0 []) := by
  unfold random_point_dropout at hout
  cases hsh : shape3 batch with
  | none => rw [hsh] at hout; exact absurd hout (by simp)
  | some s =>
      rw [hsh, Option.map_some'] at hout
      have hout2 := Option.some.inj hout
      subst hout2
      have hlen : ∀ b, b < batch.length →
          ((batch.mapIdx (fun b cl =>
            cl.mapIdx (fun n p =>
              if ptDraw b n ≤ ratioDraw b * maxDropoutRatio then cl.getD 0 []
              else p))).getD b []).length = (batch.getD b []).length := by
        intro b hb
        rw [getD_mapIdx_of_lt _ _ [] hb, List.length_mapIdx]
      have hdrop : ∀ b, b < batch.length → ∀ n, n < (batch.getD b []).length →
          ptDraw b n ≤ ratioDraw b * maxDropoutRatio →
          ((batch.mapIdx (fun b cl =>
            cl.mapIdx (fun n p =>
              if ptDraw b n ≤ ratioDraw b * maxDropoutRatio then cl.getD 0 []
              else p))).getD b []).getD n [] = (batch.getD b []).getD 0 [] := by
        intro b hb n hn hle
        rw [getD_mapIdx_of_lt _ _ [] hb, getD_mapIdx_of_lt _ _ [] hn, if_pos hle]
      refine ⟨List.length_mapIdx, hlen, hdrop, ?_⟩
      intro b hb h5 hratio hall
      refine ⟨by rw [hlen b hb, h5], ?_⟩
      intro n hn
      exact hdrop b hb n (by omega) (by rw [hratio]; exact hall n)

/-- Witness for `c6_dropout_value_law`: a 5-point single-cloud batch with
the per-cloud draw and `max_dropout_ratio` both `1` (so the dropout ratio
is `1.0`) and all per-point draws `0`; point 3 of the output equals the
original first point. -/
theorem c6_dropout_value_law_witness :
    random_point_dropout (fun _ => 1) (fun _ _ => 0) 1
        [[[(1:ℚ)], [2], [3], [4], [5]]] =
      some [[[(1:ℚ)], [1], [1], [1], [1]]] ∧
    (([[[(1:ℚ)], [1], [1], [1], [1]]] : List (List (List ℚ))).getD 0 []).getD 3 [] =
      (([[[(1:ℚ)], [2], [3], [4], [5]]] : List (List (List ℚ))).getD 0 []).getD 0 [] := by
  have hout : random_point_dropout (fun _ => 1) (fun _ _ => 0) 1
      [[[(1:ℚ)], [2], [3], [4], [5]]] = some [[[(1:ℚ)], [1], [1], [1], [1]]] := by
    norm_num [random_point_dropout, shape3, List.mapIdx_cons]
  exact ⟨hout,
    (c6_dropout_value_law (fun _ => 1) (fun _ _ => 0) 1 _ _ hout).2.2.1 0
      (by norm_num) 3 (by norm_num) (by norm_num)⟩

/-- C2 counterexample: at concrete payloads the ShapeNet sample contains
the key `"pc"` but no key `"label"` — its class index sits under
`"target"` — refuting the claim that every labeled adapter's sample has a
`"label"` key. -/
theorem c2_counterexample :
    "pc" ∈ (shapenetItem (0 : Nat) 1 2 3 4 5 6).map Prod.fst ∧
    "label" ∉ (shapenetItem (0 : Nat) 1 2 3 4 5 6).map Prod.fst := by
  decide

/-- C2 (amended): for every valid index, ModelNet and ScanObjectNN samples
contain both keys `"pc"` and `"label"`; the ShapeNet sample always contains
`"pc"`, but its label is stored under the key `"target"` and no `"label"`
key is present. -/
theorem c2_sample_keys {V : Type} (subset : String)
    (pc label className textFeature caption taxonomyId modelId image
      target : V) :
    ("pc" ∈ (modelnetItem subset pc label className textFeature).map Prod.fst ∧
      "label" ∈ (modelnetItem subset pc label className textFeature).map
        Prod.fst) ∧
    ("pc" ∈ (scanobjectnnItem pc caption label).map Prod.fst ∧
      "label" ∈ (scanobjectnnItem pc caption label).map Prod.fst) ∧
    ("pc" ∈ (shapenetItem taxonomyId modelId caption pc image target
        textFeature).map Prod.fst ∧
      "target" ∈ (shapenetItem taxonomyId modelId caption pc image target
        textFeature).map Prod.fst ∧
      "label" ∉ (shapenetItem taxonomyId modelId caption pc image target
        textFeature).map Prod.fst) := by
  refine ⟨⟨?_, ?_⟩, ⟨?_, ?_⟩, ?_, ?_, ?_⟩ <;>
    by_cases h : subset = "train" <;>
    simp [modelnetItem, scanobjectnnItem, shapenetItem, h]

/-- C7 counterexample: the retry loop of `ShapeNet.__getitem__` is *not*
bounded — with every item's image broken it never terminates (returns
`none` at every finite unrolling), refuting "the loop terminates even if
every item's image is broken". -/
theorem c7_counterexample : shapenetRetryDiverges := by
  intro fuel
  induction fuel with
  | zero => intro t idx; rfl
  | succ n ih =>
      intro t idx
      show (if false = true then _ else _) = _
      rw [if_neg (by simp)]
      exact ih (t + 1) t

/-- C7 (amended): on an image-load failure `ShapeNet.__getitem__` re-draws
a fresh random index and retries instead of propagating the error; the
retry is *unbounded* (the loop runs forever when every item's image is
broken — see the counterexample); and a failure never alters the
point-cloud processing of the eventually returned sample: whatever is
returned is exactly the per-index processing `process j` of some index `j`
whose image loads, each attempt recomputing the sample from scratch. -/
theorem c7_retry_redraw_unaltered {α : Type} (imageOk : Nat → Bool)
    (process : Nat → α) (redraw : Nat → Nat) (fuel t idx : Nat) :
    (imageOk idx = false →
      shapenetGetItemLoop imageOk process redraw (fuel + 1) t idx =
        shapenetGetItemLoop imageOk process redraw fuel (t + 1) (redraw t)) ∧
    (imageOk idx = true →
      shapenetGetItemLoop imageOk process redraw (fuel + 1) t idx =
        some (process idx)) ∧
    (∀ a, shapenetGetItemLoop imageOk process redraw fuel t idx = some a →
      ∃ j, imageOk j = true ∧ a = process j) := by
  refine ⟨fun h => ?_, fun h => ?_, ?_⟩
  · show (if imageOk idx = true then _ else _) = _
    rw [if_neg (by simp [h])]
  · show (if imageOk idx = true then _ else _) = _
    rw [if_pos h]
  · induction fuel generalizing t idx with
    | zero => intro a ha; exact absurd ha (by simp [shapenetGetItemLoop])
    | succ n ih =>
        intro a ha
        by_cases h : imageOk idx = true
        · refine ⟨idx, h, ?_⟩
          rw [show shapenetGetItemLoop imageOk process redraw (n + 1) t idx =
            some (process idx) from by
              show (if imageOk idx = true then _ else _) = _
              rw [if_pos h]] at ha
          exact (Option.some.inj ha).symm
        · rw [show shapenetGetItemLoop imageOk process redraw (n + 1) t idx =
            shapenetGetItemLoop imageOk process redraw n (t + 1) (redraw t) from by
              show (if imageOk idx = true then _ else _) = _
              rw [if_neg h]] at ha
          exact ih (t + 1) (redraw t) a ha

/-- Witness for `c7_retry_redraw_unaltered`: with only index 2's image
loadable and the redraw stream returning 2, the loop started at the broken
index 0 with two units of fuel retries once and returns the processing of
index 2 — an index whose image loads. -/
theorem c7_retry_redraw_unaltered_witness :
    shapenetGetItemLoop (fun i => i == 2) (fun i => i) (fun _ => 2) 2 0 0 =
      some 2 ∧
    (∃ j, (fun i => i == 2) j = true ∧ 2 = (fun i => i) j) := by
  have h1 := (c7_retry_redraw_unaltered (fun i => i == 2) (fun i => i)
    (fun _ => 2) 1 0 0).1 (by decide)
  have h2 := (c7_retry_redraw_unaltered (fun i => i == 2) (fun i => i)
    (fun _ => 2) 0 1 2).2.1 (by decide)
  have hfull : shapenetGetItemLoop (fun i => i == 2) (fun i => i)
      (fun _ => 2) 2 0 0 = some 2 := h1.trans h2
  exact ⟨hfull, (c7_retry_redraw_unaltered (fun i => i == 2) (fun i => i)
    (fun _ => 2) 2 0 0).2.2 2 hfull⟩

/-! ### Fold-max and list-sum helpers -/

theorem le_foldl_max (l : List ℝ) : ∀ a : ℝ,
    a ≤ l.foldl max a ∧ ∀ x ∈ l, x ≤ l.foldl max a := by
  induction l with
  | nil => intro a; exact ⟨le_refl a, by simp⟩
  | cons y ys ih =>
      intro a
      refine ⟨le_trans (le_max_left a y) (ih (max a y)).1, ?_⟩
      intro x hx
      rcases List.mem_cons.mp hx with rfl | hx
      · exact le_trans (le_max_right a x) (ih (max a x)).1
      · exact (ih (max a y)).2 x hx

theorem foldl_max_mem (l : List ℝ) : ∀ a : ℝ,
    l.foldl max a = a ∨ l.foldl max a ∈ l := by
  induction l with
  | nil => intro a; exact Or.inl rfl
  | cons y ys ih =>
      intro a
      rcases ih (max a y) with h | h
      · rcases max_choice a y with hm | hm
        · exact Or.inl (by rw [List.foldl_cons, h, hm])
        · refine Or.inr ?_
          rw [List.foldl_cons, h, hm]
          exact List.mem_cons_self y ys
      · exact Or.inr (List.mem_cons_of_mem y h)

theorem npMax_mem_le {l : List ℝ} {x : ℝ} (hx : x ∈ l) : x ≤ npMax l := by
  match l, hx with
  | y :: ys, hx =>
      rcases List.mem_cons.mp hx with rfl | hx
      · exact (le_foldl_max ys x).1
      · exact (le_foldl_max ys y).2 x hx

theorem npMax_mem (l : List ℝ) (h : l ≠ []) : npMax l ∈ l := by
  match l with
  | y :: ys =>
      rcases foldl_max_mem ys y with h1 | h1
      · show ys.foldl max y ∈ y :: ys
        rw [h1]
        exact List.mem_cons_self _ _
      · exact List.mem_cons_of_mem y h1

theorem npMax_nonneg (l : List ℝ) (h : ∀ x ∈ l, 0 ≤ x) : 0 ≤ npMax l := by
  match l with
  | [] => exact le_refl 0
  | y :: ys => exact h _ (npMax_mem _ (by simp))

theorem npMax_eq_zero_of_all_zero (l : List ℝ) (h : ∀ x ∈ l, x = 0) :
    npMax l = 0 := by
  match l with
  | [] => rfl
  | y :: ys => exact h _ (npMax_mem _ (by simp))

theorem max_div_of_pos (a b m : ℝ) (hm : 0 < m) :
    max (a / m) (b / m) = max a b / m := by
  rcases le_total a b with h | h
  · rw [max_eq_right h, max_eq_right ((div_le_div_iff_of_pos_right hm).mpr h)]
  · rw [max_eq_left h, max_eq_left ((div_le_div_iff_of_pos_right hm).mpr h)]

theorem foldl_max_map_div (l : List ℝ) (m : ℝ) (hm : 0 < m) : ∀ a : ℝ,
    (l.map (fun x => x / m)).foldl max (a / m) = l.foldl max a / m := by
  induction l with
  | nil => intro a; rfl
  | cons y ys ih =>
      intro a
      show (ys.map (fun x => x / m)).foldl max (max (a / m) (y / m)) = _
      rw [max_div_of_pos a y m hm, ih (max a y)]
      rfl

theorem npMax_map_div (l : List ℝ) (m : ℝ) (hm : 0 < m) :
    npMax (l.map (fun x => x / m)) = npMax l / m := by
  match l with
  | [] => show (0:ℝ) = 0 / m; rw [zero_div]
  | y :: ys => exact foldl_max_map_div ys m hm y

theorem sum_map_sub {α : Type} (l : List α) (f g : α → ℝ) :
    (l.map (fun x => f x - g x)).sum = (l.map f).sum - (l.map g).sum := by
  induction l with
  | nil => simp
  | cons y ys ih =>
      simp only [List.map_cons, List.sum_cons, ih]
      ring

theorem sum_map_div {α : Type} (l : List α) (f : α → ℝ) (m : ℝ) :
    (l.map (fun x => f x / m)).sum = (l.map f).sum / m := by
  induction l with
  | nil => simp
  | cons y ys ih =>
      simp only [List.map_cons, List.sum_cons, ih]
      ring

theorem sum_map_const_real {α : Type} (l : List α) (c : ℝ) :
    (l.map (fun _ => c)).sum = l.length * c := by
  induction l with
  | nil => simp
  | cons y ys ih =>
      simp only [List.map_cons, List.sum_cons, ih, List.length_cons]
      push_cast
      ring

/-! ### Centroid and norm facts -/

theorem npMean_centered {D : Nat} (pc : List (Fin D → ℝ)) (h : pc ≠ [])
    (d : Fin D) : npMean (centered pc) d = 0 := by
  have hlen : (pc.length : ℝ) ≠ 0 := by
    have := List.length_pos.mpr h
    positivity
  unfold npMean centered
  rw [List.map_map]
  show ((pc.map (fun p => p d - npMean pc d)).sum) / _ = 0
  rw [sum_map_sub pc (fun p => p d) (fun _ => npMean pc d),
    sum_map_const_real, List.length_map]
  unfold npMean
  field_simp

theorem centered_of_mean_zero {D : Nat} (y : List (Fin D → ℝ))
    (h : ∀ d, npMean y d = 0) : centered y = y := by
  unfold centered
  have heq : (fun (p : Fin D → ℝ) d => p d - npMean y d) = fun p => p := by
    funext p d
    rw [h d, sub_zero]
  rw [heq, List.map_id']

theorem rowNorm_nonneg {D : Nat} (p : Fin D → ℝ) : 0 ≤ rowNorm p :=
  Real.sqrt_nonneg _

theorem rowNorm_div {D : Nat} (p : Fin D → ℝ) (m : ℝ) (hm : 0 ≤ m) :
    rowNorm (fun d => p d / m) = rowNorm p / m := by
  unfold rowNorm
  rw [show (∑ d, (p d / m) ^ 2) = (∑ d, p d ^ 2) / m ^ 2 by
      rw [Finset.sum_div]
      congr 1
      funext d
      rw [div_pow],
    Real.sqrt_div (by positivity), Real.sqrt_sq hm]

theorem rowNorm_zero_fun {D : Nat} : rowNorm (fun _ : Fin D => (0:ℝ)) = 0 := by
  unfold rowNorm
  simp

theorem maxCenteredNorm_nonneg {D : Nat} (pc : List (Fin D → ℝ)) :
    0 ≤ maxCenteredNorm pc := by
  apply npMax_nonneg
  intro x hx
  obtain ⟨p, _, rfl⟩ := List.mem_map.mp hx
  exact rowNorm_nonneg p

/-- The common shape of both routines' non-degenerate output
`y = centered / m`: zero centroid, `centered y = y`, and maximum point
norm exactly `1`. -/
theorem normalizedCore {D : Nat} (pc : List (Fin D → ℝ)) (hne : pc ≠ [])
    (hm : 0 < maxCenteredNorm pc) :
    (∀ d, npMean ((centered pc).map
      (fun p d => p d / maxCenteredNorm pc)) d = 0) ∧
    centered ((centered pc).map (fun p d => p d / maxCenteredNorm pc)) =
      (centered pc).map (fun p d => p d / maxCenteredNorm pc) ∧
    npMax (((centered pc).map
      (fun p d => p d / maxCenteredNorm pc)).map rowNorm) = 1 ∧
    maxCenteredNorm ((centered pc).map
      (fun p d => p d / maxCenteredNorm pc)) = 1 := by
  have hlen : (pc.length : ℝ) ≠ 0 := by
    have := List.length_pos.mpr hne
    positivity
  have hmean : ∀ d, npMean ((centered pc).map
      (fun p d => p d / maxCenteredNorm pc)) d = 0 := by
    intro d
    unfold npMean
    rw [List.map_map]
    show (((centered pc).map
      (fun p => p d / maxCenteredNorm pc)).sum) / _ = 0
    rw [sum_map_div (centered pc) (fun p => p d) (maxCenteredNorm pc)]
    have hc := npMean_centered pc hne d
    unfold npMean at hc
    rw [div_eq_zero_iff] at hc
    rcases hc with hc | hc
    · rw [hc, zero_div, zero_div]
    · exfalso
      apply hlen
      have hcl : (centered pc).length = pc.length := by
        unfold centered
        exact List.length_map _ _
      rw [hcl] at hc
      exact hc
  have hnorms : (((centered pc).map
      (fun p d => p d / maxCenteredNorm pc)).map rowNorm) =
      ((centered pc).map rowNorm).map (fun x => x / maxCenteredNorm pc) := by
    rw [List.map_map, List.map_map]
    refine List.map_congr_left fun p _ => ?_
    show rowNorm (fun d => p d / maxCenteredNorm pc) = _
    rw [rowNorm_div p _ (le_of_lt hm)]
    rfl
  have hmax : npMax (((centered pc).map
      (fun p d => p d / maxCenteredNorm pc)).map rowNorm) = 1 := by
    rw [hnorms, npMax_map_div _ _ hm]
    exact div_self (ne_of_gt hm)
  have hcent := centered_of_mean_zero _ hmean
  refine ⟨hmean, hcent, hmax, ?_⟩
  show npMax ((centered ((centered pc).map
    (fun p d => p d / maxCenteredNorm pc))).map rowNorm) = 1
  rw [hcent]
  exact hmax

/-- C10: on a nonempty, non-degenerate cloud (some point off the
centroid, `m > 0`) the output of `pc_normalize` has centroid exactly zero
and maximum Euclidean point norm exactly `1`, and every output coordinate
lies in `[-1, 1]`. -/
theorem c10_pc_normalize_unit {D : Nat} (pc : List (Fin D → ℝ))
    (hne : pc ≠ []) (hm : 0 < maxCenteredNorm pc) :
    (∀ d, npMean (pc_normalize pc) d = 0) ∧
    npMax ((pc_normalize pc).map rowNorm) = 1 ∧
    (∀ p ∈ pc_normalize pc, ∀ d, |p d| ≤ 1) := by
  obtain ⟨h1, h2, h3, h4⟩ := normalizedCore pc hne hm
  refine ⟨h1, h3, ?_⟩
  intro p hp d
  have habs : |p d| ≤ rowNorm p := by
    rw [← Real.sqrt_sq_eq_abs]
    apply Real.sqrt_le_sqrt
    exact Finset.single_le_sum (fun e _ => sq_nonneg (p e)) (Finset.mem_univ d)
  have hmem : rowNorm p ∈ (pc_normalize pc).map rowNorm :=
    List.mem_map_of_mem rowNorm hp
  have hle : rowNorm p ≤ npMax (((centered pc).map
      (fun p d => p d / maxCenteredNorm pc)).map rowNorm) :=
    npMax_mem_le hmem
  rw [h3] at hle
  linarith

/-- The centred maximum norm of the concrete cloud `[(3,0,0), (-3,0,0)]`. -/
theorem maxCenteredNorm_pm3 :
    maxCenteredNorm [![(3:ℝ),0,0], ![-3,0,0]] = 3 := by
  have hmean : ∀ d, npMean ([![(3:ℝ),0,0], ![-3,0,0]] : List (Fin 3 → ℝ)) d = 0 := by
    intro d
    unfold npMean
    fin_cases d <;> norm_num
  have hcent : centered [![(3:ℝ),0,0], ![-3,0,0]] = [![(3:ℝ),0,0], ![-3,0,0]] :=
    centered_of_mean_zero _ hmean
  have hnorm1 : rowNorm ![(3:ℝ),0,0] = 3 := by
    unfold rowNorm
    rw [Fin.sum_univ_three]
    norm_num
    rw [show (9:ℝ) = 3 ^ 2 by norm_num, Real.sqrt_sq (by norm_num)]
  have hnorm2 : rowNorm ![(-3:ℝ),0,0] = 3 := by
    unfold rowNorm
    rw [Fin.sum_univ_three]
    norm_num
    rw [show (9:ℝ) = 3 ^ 2 by norm_num, Real.sqrt_sq (by norm_num)]
  unfold maxCenteredNorm
  rw [hcent]
  show npMax [rowNorm ![(3:ℝ),0,0], rowNorm ![(-3:ℝ),0,0]] = 3
  rw [hnorm1, hnorm2]
  show max 3 3 = 3
  rw [max_self]

/-- Witness for `c10_pc_normalize_unit` on the concrete cloud
`[(3,0,0), (-3,0,0)]`, whose centred maximum norm is `3 > 0`. -/
theorem c10_pc_normalize_unit_witness :
    (0:ℝ) < maxCenteredNorm [![(3:ℝ),0,0], ![-3,0,0]] ∧
    npMax ((pc_normalize [![(3:ℝ),0,0], ![-3,0,0]]).map rowNorm) = 1 := by
  have hpos : (0:ℝ) < maxCenteredNorm [![(3:ℝ),0,0], ![-3,0,0]] := by
    rw [maxCenteredNorm_pm3]
    norm_num
  exact ⟨hpos,
    (c10_pc_normalize_unit [![(3:ℝ),0,0], ![-3,0,0]] (by simp) hpos).2.1⟩

/-- C4: both normalisation routines are idempotent on every nonempty,
non-degenerate cloud (points not all coincident, i.e. centred maximum norm
positive) — exactly, in real arithmetic. -/
theorem c4_normalize_idempotent {D : Nat} (pc : List (Fin D → ℝ))
    (hne : pc ≠ []) (hm : 0 < maxCenteredNorm pc) :
    pc_normalize (pc_normalize pc) = pc_normalize pc ∧
    normalize_pc (normalize_pc pc) = normalize_pc pc := by
  obtain ⟨h1, h2, h3, h4⟩ := normalizedCore pc hne hm
  have hdivone : (fun (p : Fin D → ℝ) d => p d / (1:ℝ)) = fun p => p := by
    funext p d
    rw [div_one]
  constructor
  · show (centered (pc_normalize pc)).map
      (fun p d => p d / maxCenteredNorm (pc_normalize pc)) = pc_normalize pc
    have hc2 : centered (pc_normalize pc) = pc_normalize pc := h2
    have hm2 : maxCenteredNorm (pc_normalize pc) = 1 := h4
    rw [hc2, hm2, hdivone, List.map_id']
  · by_cases hlt : maxCenteredNorm pc < 1e-6
    · have hz : normalize_pc pc = (centered pc).map (fun _ _ => (0:ℝ)) := by
        unfold normalize_pc
        rw [if_pos hlt]
      rw [hz, List.map_const']
      have hmeanz : ∀ d,
          npMean (List.replicate (centered pc).length
            (fun _ : Fin D => (0:ℝ))) d = 0 := by
        intro d
        unfold npMean
        rw [List.map_replicate, List.sum_replicate]
        simp
      have hcentz : centered (List.replicate (centered pc).length
            (fun _ : Fin D => (0:ℝ))) =
          List.replicate (centered pc).length (fun _ => (0:ℝ)) :=
        centered_of_mean_zero _ hmeanz
      have hmaxz : maxCenteredNorm (List.replicate (centered pc).length
          (fun _ : Fin D => (0:ℝ))) = 0 := by
        show npMax ((centered (List.replicate (centered pc).length
          (fun _ : Fin D => (0:ℝ)))).map rowNorm) = 0
        rw [hcentz, List.map_replicate, rowNorm_zero_fun]
        apply npMax_eq_zero_of_all_zero
        intro x hx
        exact List.eq_of_mem_replicate hx
      unfold normalize_pc
      rw [if_pos (by rw [hmaxz]; norm_num), hcentz, List.map_replicate]
    · have hy : normalize_pc pc =
          (centered pc).map (fun p d => p d / maxCenteredNorm pc) := by
        unfold normalize_pc
        rw [if_neg hlt]
      rw [hy]
      unfold normalize_pc
      rw [if_neg (by rw [h4]; norm_num), h2, h4, hdivone, List.map_id']

/-- Witness for `c4_normalize_idempotent` on the concrete non-degenerate
cloud `[(3,0,0), (-3,0,0)]`. -/
theorem c4_normalize_idempotent_witness :
    ([![(3:ℝ),0,0], ![-3,0,0]] : List (Fin 3 → ℝ)) ≠ [] ∧
    (0:ℝ) < maxCenteredNorm [![(3:ℝ),0,0], ![-3,0,0]] ∧
    pc_normalize (pc_normalize [![(3:ℝ),0,0], ![-3,0,0]]) =
      pc_normalize [![(3:ℝ),0,0], ![-3,0,0]] := by
  have hpos : (0:ℝ) < maxCenteredNorm [![(3:ℝ),0,0], ![-3,0,0]] := by
    rw [maxCenteredNorm_pm3]
    norm_num
  exact ⟨by simp, hpos,
    (c4_normalize_idempotent [![(3:ℝ),0,0], ![-3,0,0]] (by simp) hpos).1⟩

/-- C1 (amended): `normalize_pc` guards the degenerate case — whenever the
centred maximum norm is below `1e-6` it returns the all-zero cloud of the
input's shape, raising nothing.  `pc_normalize` has *no* such guard and
divides by the near-zero norm unconditionally (see the counterexample). -/
theorem c1_normalize_pc_zero_guard {D : Nat} (pc : List (Fin D → ℝ))
    (_hne : pc ≠ []) (hlt : maxCenteredNorm pc < 1e-6) :
    normalize_pc pc = List.replicate pc.length (fun _ => (0:ℝ)) := by
  unfold normalize_pc
  rw [if_pos hlt, List.map_const',
    show (centered pc).length = pc.length from by
      unfold centered
      exact List.length_map _ _]

/-- C1 counterexample: on the two-point cloud
`[(-1/2500000, 0, 0), (1/2500000, 0, 0)]` the centred maximum norm is
`1/2500000 < 1e-6`, yet `pc_normalize` — which lacks the epsilon guard —
divides by it and returns a cloud whose first coordinate is `-1`, not the
all-zero cloud the claim asserts for both normalization functions. -/
theorem c1_counterexample :
    maxCenteredNorm [![-(1/2500000 : ℝ),0,0], ![(1/2500000 : ℝ),0,0]] < 1e-6 ∧
    (pc_normalize [![-(1/2500000 : ℝ),0,0], ![(1/2500000 : ℝ),0,0]]).getD 0
      (fun _ => 0) 0 = -1 ∧
    (pc_normalize [![-(1/2500000 : ℝ),0,0], ![(1/2500000 : ℝ),0,0]]).getD 0
      (fun _ => 0) 0 ≠ 0 := by
  have hmean : ∀ d, npMean
      ([![-(1/2500000 : ℝ),0,0], ![(1/2500000 : ℝ),0,0]] : List (Fin 3 → ℝ))
      d = 0 := by
    intro d
    unfold npMean
    fin_cases d <;> norm_num
  have hcent : centered [![-(1/2500000 : ℝ),0,0], ![(1/2500000 : ℝ),0,0]] =
      [![-(1/2500000 : ℝ),0,0], ![(1/2500000 : ℝ),0,0]] :=
    centered_of_mean_zero _ hmean
  have hnorm1 : rowNorm ![-(1/2500000 : ℝ),0,0] = 1/2500000 := by
    unfold rowNorm
    rw [Fin.sum_univ_three]
    norm_num
    rw [show (6250000000000 : ℝ) = 2500000 ^ 2 by norm_num,
      Real.sqrt_sq (by norm_num)]
    norm_num
  have hnorm2 : rowNorm ![(1/2500000 : ℝ),0,0] = 1/2500000 := by
    unfold rowNorm
    rw [Fin.sum_univ_three]
    norm_num
    rw [show (6250000000000 : ℝ) = 2500000 ^ 2 by norm_num,
      Real.sqrt_sq (by norm_num)]
    norm_num
  have hmax : maxCenteredNorm
      [![-(1/2500000 : ℝ),0,0], ![(1/2500000 : ℝ),0,0]] = 1/2500000 := by
    unfold maxCenteredNorm
    rw [hcent]
    show npMax [rowNorm ![-(1/2500000 : ℝ),0,0],
      rowNorm ![(1/2500000 : ℝ),0,0]] = 1/2500000
    rw [hnorm1, hnorm2]
    show max (1/2500000 : ℝ) (1/2500000) = 1/2500000
    rw [max_self]
  have hval : (pc_normalize
      [![-(1/2500000 : ℝ),0,0], ![(1/2500000 : ℝ),0,0]]).getD 0
      (fun _ => 0) 0 = -1 := by
    show ((centered [![-(1/2500000 : ℝ),0,0], ![(1/2500000 : ℝ),0,0]]).map
      (fun p d => p d / maxCenteredNorm
        [![-(1/2500000 : ℝ),0,0], ![(1/2500000 : ℝ),0,0]])).getD 0
      (fun _ => 0) 0 = -1
    rw [hcent, hmax]
    show ![-(1/2500000 : ℝ),0,0] 0 / (1/2500000) = -1
    norm_num
  refine ⟨by rw [hmax]; norm_num, hval, by rw [hval]; norm_num⟩

/-- Witness for `c1_normalize_pc_zero_guard` on a cloud of two coincident
points: the centred maximum norm is `0 < 1e-6` and `normalize_pc` returns
the all-zero cloud. -/
theorem c1_normalize_pc_zero_guard_witness :
    ([![(1:ℝ),2,3], ![1,2,3]] : List (Fin 3 → ℝ)) ≠ [] ∧
    maxCenteredNorm [![(1:ℝ),2,3], ![1,2,3]] < 1e-6 ∧
    normalize_pc [![(1:ℝ),2,3], ![1,2,3]] =
      List.replicate 2 (fun _ => (0:ℝ)) := by
  have hcent : centered [![(1:ℝ),2,3], ![1,2,3]] =
      [(fun _ => (0:ℝ)), (fun _ => 0)] := by
    unfold centered
    simp only [List.map_cons, List.map_nil]
    congr 1
    · funext d
      show ![(1:ℝ),2,3] d - npMean [![(1:ℝ),2,3], ![1,2,3]] d = 0
      unfold npMean
      fin_cases d <;> norm_num
    · congr 1
      funext d
      show ![(1:ℝ),2,3] d - npMean [![(1:ℝ),2,3], ![1,2,3]] d = 0
      unfold npMean
      fin_cases d <;> norm_num
  have hmaxz : maxCenteredNorm [![(1:ℝ),2,3], ![1,2,3]] = 0 := by
    unfold maxCenteredNorm
    rw [hcent]
    show npMax [rowNorm (fun _ => (0:ℝ)), rowNorm (fun _ => (0:ℝ))] = 0
    rw [rowNorm_zero_fun]
    show max (0:ℝ) 0 = 0
    rw [max_self]
  have hlt : maxCenteredNorm [![(1:ℝ),2,3], ![1,2,3]] < 1e-6 := by
    rw [hmaxz]
    norm_num
  exact ⟨by simp, hlt,
    c1_normalize_pc_zero_guard [![(1:ℝ),2,3], ![1,2,3]] (by simp) hlt⟩

end UniAlign
